import Mathlib

/-!
Verification of the caching / outbound-throttling layer of the ADK-Learning
web application (`src/my_app/agents/common/utils.py` and
`src/my_app/agents/common/weather.py`).

The Python code is shallowly embedded: `OrderedDict` / `dict` become
association lists (front of the list = oldest / least-recently-used end),
`time.time()` readings become explicit `ℚ` arguments, `time.sleep` wakeups
become explicit `ℚ` arguments, and operations that can raise a Python
exception return `Option` (`none` = the exception).  Each operation takes a
single `now` argument standing for all the `time.time()` readings it performs
(the code reads the clock more than once per operation; the readings are
idealized as equal except across a `sleep`, which gets its own reading).
-/

namespace ADK

/-! ### Association-list primitives (model of Python `dict` / `OrderedDict`) -/

/-- Lookup in an association list, scanning from the front (the front models
the oldest / least-recently-used end of an `OrderedDict`). -/
def lookupA {K V : Type} [DecidableEq K] : List (K × V) → K → Option V
  | [], _ => none
  | (k', v) :: rest, k => if k = k' then some v else lookupA rest k

/-- `k in d` for a Python dict. -/
def containsA {K V : Type} [DecidableEq K] (l : List (K × V)) (k : K) : Bool :=
  (lookupA l k).isSome

/-- `del d[k]`: remove every pair with key `k` (on states with unique keys
this removes exactly the one entry, as Python does). -/
def removeA {K V : Type} [DecidableEq K] (l : List (K × V)) (k : K) : List (K × V) :=
  l.filter (fun p => p.1 ≠ k)

/-- `d[k] = v` for a Python dict: replace the value in place when the key is
present, otherwise append the new pair at the end. -/
def setA {K V : Type} [DecidableEq K] (l : List (K × V)) (k : K) (v : V) : List (K × V) :=
  if containsA l k then l.map (fun p => if p.1 = k then (k, v) else p)
  else l ++ [(k, v)]

/-- `OrderedDict.move_to_end(k)` for a present key: the pair moves to the
most-recently-used (right) end.  The fallthrough for an absent key is the
identity; every call site in the embedded code has the key present. -/
def moveToEnd {K V : Type} [DecidableEq K] (l : List (K × V)) (k : K) : List (K × V) :=
  match lookupA l k with
  | none => l
  | some v => removeA l k ++ [(k, v)]

section AssocLemmas

variable {K V : Type} [DecidableEq K]

theorem lookupA_cons (k₀ : K) (v₀ : V) (rest : List (K × V)) (k : K) :
    lookupA ((k₀, v₀) :: rest) k = if k = k₀ then some v₀ else lookupA rest k := rfl

theorem lookupA_append_none (l₁ l₂ : List (K × V)) (k : K)
    (h : lookupA l₁ k = none) : lookupA (l₁ ++ l₂) k = lookupA l₂ k := by
  induction l₁ with
  | nil => rfl
  | cons p rest ih =>
    obtain ⟨k₀, v₀⟩ := p
    by_cases hk : k = k₀
    · simp [lookupA_cons, hk] at h
    · simp only [lookupA_cons, if_neg hk] at h
      simpa [List.cons_append, lookupA_cons, if_neg hk] using ih h

theorem lookupA_append_some (l₁ l₂ : List (K × V)) (k : K) (v : V)
    (h : lookupA l₁ k = some v) : lookupA (l₁ ++ l₂) k = some v := by
  induction l₁ with
  | nil => simp [lookupA] at h
  | cons p rest ih =>
    obtain ⟨k₀, v₀⟩ := p
    by_cases hk : k = k₀
    · simp only [lookupA_cons, if_pos hk] at h
      simp [List.cons_append, lookupA_cons, if_pos hk, h]
    · simp only [lookupA_cons, if_neg hk] at h
      simpa [List.cons_append, lookupA_cons, if_neg hk] using ih h

theorem removeA_cons (k₀ : K) (v₀ : V) (rest : List (K × V)) (k : K) :
    removeA ((k₀, v₀) :: rest) k =
      if k₀ = k then removeA rest k else (k₀, v₀) :: removeA rest k := by
  by_cases hk : k₀ = k <;> simp [removeA, List.filter_cons, hk]

theorem lookupA_removeA (l : List (K × V)) (k k' : K) :
    lookupA (removeA l k) k' = if k' = k then none else lookupA l k' := by
  induction l with
  | nil => simp [removeA, lookupA]
  | cons p rest ih =>
    obtain ⟨k₀, v₀⟩ := p
    rw [removeA_cons]
    by_cases hk : k₀ = k
    · subst hk
      rw [if_pos rfl, ih]
      by_cases h' : k' = k₀
      · simp [h']
      · simp [h', lookupA_cons]
    · rw [if_neg hk]
      by_cases h' : k' = k₀
      · subst h'
        simp [lookupA_cons, hk]
      · simp [lookupA_cons, h', ih]

theorem removeA_of_lookup_none (l : List (K × V)) (k : K)
    (h : lookupA l k = none) : removeA l k = l := by
  induction l with
  | nil => rfl
  | cons p rest ih =>
    obtain ⟨k₀, v₀⟩ := p
    by_cases hk : k = k₀
    · simp [lookupA_cons, hk] at h
    · simp only [lookupA_cons, if_neg hk] at h
      rw [removeA_cons, if_neg (fun hh => hk hh.symm), ih h]

theorem lookupA_mapset (l : List (K × V)) (k k' : K) (v : V) :
    lookupA (l.map (fun p => if p.1 = k then (k, v) else p)) k' =
      if k' = k then (lookupA l k).map (fun _ => v) else lookupA l k' := by
  induction l with
  | nil => by_cases h' : k' = k <;> simp [lookupA, h']
  | cons p rest ih =>
    obtain ⟨k₀, v₀⟩ := p
    by_cases hk : k₀ = k
    · subst hk
      by_cases h' : k' = k₀ <;> simp [lookupA_cons, h', ih]
    · have hk' : ¬ k = k₀ := fun hh => hk hh.symm
      by_cases h' : k' = k₀
      · subst h'
        have hne : ¬ k' = k := fun hh => hk hh
        simp [lookupA_cons, hk, hne]
      · simp [lookupA_cons, hk, hk', h', ih]

theorem setA_of_not_contains (l : List (K × V)) (k : K) (v : V)
    (h : ¬ containsA l k) : setA l k v = l ++ [(k, v)] := by
  simp [setA, h]

theorem lookupA_setA (l : List (K × V)) (k k' : K) (v : V) :
    lookupA (setA l k v) k' = if k' = k then some v else lookupA l k' := by
  unfold setA
  by_cases hc : containsA l k
  · rw [if_pos hc, lookupA_mapset]
    by_cases h' : k' = k
    · rw [if_pos h', if_pos h']
      unfold containsA at hc
      obtain ⟨v₀, hv⟩ := Option.isSome_iff_exists.mp hc
      rw [hv]
      rfl
    · rw [if_neg h', if_neg h']
  · rw [if_neg hc]
    have habs : lookupA l k = none := by
      cases h : lookupA l k with
      | none => rfl
      | some v₀ => exact absurd (by simp [containsA, h]) hc
    by_cases h' : k' = k
    · subst h'
      rw [if_pos rfl, lookupA_append_none _ _ _ habs]
      simp [lookupA]
    · rw [if_neg h']
      cases hx : lookupA l k' with
      | none =>
        rw [lookupA_append_none _ _ _ hx]
        simp [lookupA, h']
      | some v₀ => rw [lookupA_append_some _ _ _ _ hx]

theorem lookupA_moveToEnd (l : List (K × V)) (k k' : K) (v : V)
    (h : lookupA l k = some v) :
    lookupA (moveToEnd l k) k' = if k' = k then some v else lookupA l k' := by
  unfold moveToEnd
  rw [h]
  by_cases h' : k' = k
  · subst h'
    have hr : lookupA (removeA l k') k' = none := by rw [lookupA_removeA]; simp
    rw [if_pos rfl, lookupA_append_none _ _ _ hr]
    simp [lookupA]
  · rw [if_neg h']
    have hr : lookupA (removeA l k) k' = lookupA l k' := by
      rw [lookupA_removeA, if_neg h']
    cases hx : lookupA l k' with
    | none =>
      rw [lookupA_append_none _ _ _ (hr.trans hx)]
      simp [lookupA, h', hx]
    | some v₀ => rw [lookupA_append_some _ _ _ _ (hr.trans hx)]

theorem length_removeA_le (l : List (K × V)) (k : K) :
    (removeA l k).length ≤ l.length :=
  List.length_filter_le _ _

theorem length_removeA_head (k₀ : K) (v₀ : V) (rest : List (K × V)) :
    (removeA ((k₀, v₀) :: rest) k₀).length ≤ rest.length := by
  rw [removeA_cons, if_pos rfl]
  exact length_removeA_le rest k₀

theorem length_setA_of_contains (l : List (K × V)) (k : K) (v : V)
    (h : containsA l k) : (setA l k v).length = l.length := by
  simp [setA, h]

theorem keys_mapset (l : List (K × V)) (k : K) (v : V) :
    (l.map (fun p => if p.1 = k then (k, v) else p)).map Prod.fst = l.map Prod.fst := by
  induction l with
  | nil => rfl
  | cons p rest ih =>
    obtain ⟨k₀, v₀⟩ := p
    by_cases hk : k₀ = k <;> simp [hk, ih]

theorem keys_removeA (l : List (K × V)) (k : K) :
    (removeA l k).map Prod.fst = (l.map Prod.fst).filter (fun x => x ≠ k) := by
  induction l with
  | nil => rfl
  | cons p rest ih =>
    obtain ⟨k₀, v₀⟩ := p
    by_cases hk : k₀ = k
    · rw [removeA_cons, if_pos hk]
      simp [List.filter_cons, hk, ih]
    · rw [removeA_cons, if_neg hk]
      simp [List.filter_cons, hk, ih]

theorem lookup_none_iff_not_mem_keys (l : List (K × V)) (k : K) :
    lookupA l k = none ↔ k ∉ l.map Prod.fst := by
  induction l with
  | nil => simp [lookupA]
  | cons p rest ih =>
    obtain ⟨k₀, v₀⟩ := p
    by_cases hk : k = k₀ <;> simp [lookupA_cons, hk, ih]

end AssocLemmas

/-! ### Configuration defaults (`config.py`, `Config`) -/

namespace Config

/-- `ADK_GEOCODE_TTL` default. -/
def GEOCODE_TTL : ℚ := 3600

/-- `ADK_WEATHER_TTL` default. -/
def WEATHER_TTL : ℚ := 300

/-- `ADK_FORECAST_TTL` default. -/
def FORECAST_TTL : ℚ := 900

/-- `ADK_MAX_CACHE_ITEMS` default. -/
def MAX_CACHE_ITEMS : ℕ := 1000

/-- `ADK_RATE_LIMIT_RPS` default. -/
def RATE_LIMIT_RPS : ℚ := 5

/-- `RL_WINDOW_SEC`. -/
def RL_WINDOW_SEC : ℚ := 1

end Config

/-! ### `TTLCache` (`utils.py`, lines 65–111) -/

/-- State of `TTLCache`: `cache` is the `OrderedDict` (front = least recently
used), `expirations` the plain dict of absolute expiry times. -/
structure TTLCache (K V : Type) where
  max_items : ℕ
  cache : List (K × V)
  expirations : List (K × ℚ)
deriving DecidableEq

namespace TTLCache

variable {K V : Type} [DecidableEq K]

/-- `TTLCache.__init__`: both maps start empty. -/
def empty (max_items : ℕ) : TTLCache K V := ⟨max_items, [], []⟩

/-- `TTLCache._remove_key`: delete the key from both maps. -/
def removeKey (c : TTLCache K V) (k : K) : TTLCache K V :=
  { c with cache := removeA c.cache k, expirations := removeA c.expirations k }

/-- `TTLCache.get(key, ttl)` at clock reading `now`.  Returns
`none` when the Python code would raise (`self.expirations[key]` raising
`KeyError` on a key present in `cache` but absent from `expirations`);
otherwise `some (result, new state)`.  Note that the `ttl` parameter is
never used by the body, exactly as in the source. -/
def get (c : TTLCache K V) (k : K) (ttl : ℚ) (now : ℚ) : Option (Option V × TTLCache K V) :=
  match lookupA c.cache k with
  | none => some (none, c)
  | some v =>
    match lookupA c.expirations k with
    | none => none
    | some exp =>
      if now > exp then some (none, c.removeKey k)
      else some (some v, { c with cache := moveToEnd c.cache k })

/-- The unconditional tail of `TTLCache.set`:
`self.cache[key] = value; self.expirations[key] = time.time() + ttl;
self.cache.move_to_end(key)`. -/
def insertEntry (c : TTLCache K V) (k : K) (v : V) (ttl : ℚ) (now : ℚ) : TTLCache K V :=
  { c with cache := moveToEnd (setA c.cache k v) k,
           expirations := setA c.expirations k (now + ttl) }

/-- `TTLCache.set(key, value, ttl)` at clock reading `now`.  Returns `none`
when the Python code would raise (`next(iter(self.cache))` raising
`StopIteration` on an empty cache, reachable only when `max_items = 0`). -/
def set (c : TTLCache K V) (k : K) (v : V) (ttl : ℚ) (now : ℚ) : Option (TTLCache K V) :=
  if c.cache.length ≥ c.max_items ∧ ¬ containsA c.cache k then
    match c.cache with
    | [] => none
    | (k0, _) :: _ => some ((c.removeKey k0).insertEntry k v ttl now)
  else
    some (c.insertEntry k v ttl now)

/-- `TTLCache.clear`. -/
def clear (c : TTLCache K V) : TTLCache K V := ⟨c.max_items, [], []⟩

/-- `TTLCache.size`. -/
def size (c : TTLCache K V) : ℕ := c.cache.length

end TTLCache

/-! ### Sequences of cache operations -/

/-- One call on a `TTLCache`, tagged with the clock reading at which it runs. -/
inductive CacheOp (K V : Type) where
  | get (k : K) (ttl : ℚ) (now : ℚ)
  | set (k : K) (v : V) (ttl : ℚ) (now : ℚ)
  | clear

/-- Execute one call.  A call that raises (returns `none`) raises before any
mutation in the Python code, so the state is unchanged. -/
def applyOp {K V : Type} [DecidableEq K] (c : TTLCache K V) : CacheOp K V → TTLCache K V
  | .get k ttl now =>
    match c.get k ttl now with
    | none => c
    | some (_, c') => c'
  | .set k v ttl now =>
    match c.set k v ttl now with
    | none => c
    | some c' => c'
  | .clear => c.clear

/-- Execute a sequence of calls, oldest first. -/
def runOps {K V : Type} [DecidableEq K] (c : TTLCache K V) (ops : List (CacheOp K V)) :
    TTLCache K V :=
  ops.foldl applyOp c

section CacheLemmas

variable {K V : Type} [DecidableEq K]

theorem get_of_absent (c : TTLCache K V) (k : K) (ttl now : ℚ)
    (h : lookupA c.cache k = none) : c.get k ttl now = some (none, c) := by
  simp [TTLCache.get, h]

theorem get_of_expired (c : TTLCache K V) (k : K) (ttl now : ℚ) (v : V) (exp : ℚ)
    (hv : lookupA c.cache k = some v) (he : lookupA c.expirations k = some exp)
    (hx : exp < now) : c.get k ttl now = some (none, c.removeKey k) := by
  simp [TTLCache.get, hv, he, hx]

theorem get_of_fresh (c : TTLCache K V) (k : K) (ttl now : ℚ) (v : V) (exp : ℚ)
    (hv : lookupA c.cache k = some v) (he : lookupA c.expirations k = some exp)
    (hx : ¬ exp < now) :
    c.get k ttl now = some (some v, { c with cache := moveToEnd c.cache k }) := by
  simp [TTLCache.get, hv, he, hx]

theorem length_removeA_lt (l : List (K × V)) (k : K) (v : V)
    (h : lookupA l k = some v) : (removeA l k).length < l.length := by
  induction l with
  | nil => simp [lookupA] at h
  | cons p rest ih =>
    obtain ⟨k₀, v₀⟩ := p
    by_cases hk : k = k₀
    · rw [removeA_cons, if_pos hk.symm]
      exact Nat.lt_succ_of_le (length_removeA_le rest k)
    · simp only [lookupA_cons, if_neg hk] at h
      rw [removeA_cons, if_neg (fun hh => hk hh.symm)]
      exact Nat.succ_lt_succ (ih h)

theorem length_moveToEnd_le (l : List (K × V)) (k : K) (v : V)
    (h : lookupA l k = some v) : (moveToEnd l k).length ≤ l.length := by
  unfold moveToEnd
  rw [h]
  simp only [List.length_append, List.length_cons, List.length_nil, Nat.zero_add]
  exact Nat.succ_le_of_lt (length_removeA_lt l k v h)

theorem lookupA_setA_self (l : List (K × V)) (k : K) (v : V) :
    lookupA (setA l k v) k = some v := by
  rw [lookupA_setA, if_pos rfl]

theorem lookupA_moveToEnd_setA (l : List (K × V)) (k k' : K) (v : V) :
    lookupA (moveToEnd (setA l k v) k) k' = if k' = k then some v else lookupA l k' := by
  rw [lookupA_moveToEnd _ _ _ _ (lookupA_setA_self l k v)]
  by_cases h' : k' = k
  · simp [h']
  · simp [h', lookupA_setA]

theorem lookupA_insertEntry_cache (c : TTLCache K V) (k k' : K) (v : V) (ttl now : ℚ) :
    lookupA (c.insertEntry k v ttl now).cache k' =
      if k' = k then some v else lookupA c.cache k' := by
  simp [TTLCache.insertEntry, lookupA_moveToEnd_setA]

theorem lookupA_insertEntry_exp (c : TTLCache K V) (k k' : K) (v : V) (ttl now : ℚ) :
    lookupA (c.insertEntry k v ttl now).expirations k' =
      if k' = k then some (now + ttl) else lookupA c.expirations k' := by
  simp [TTLCache.insertEntry, lookupA_setA]

theorem set_isSome (c : TTLCache K V) (k : K) (v : V) (ttl now : ℚ)
    (hmax : 1 ≤ c.max_items) : (c.set k v ttl now).isSome := by
  unfold TTLCache.set
  split
  case isTrue h =>
    rcases hc : c.cache with _ | ⟨⟨k0, v0⟩, rest⟩
    · rw [hc] at h
      simp at h
      omega
    · simp [hc]
  case isFalse h => simp

theorem get_keyerror (c : TTLCache K V) (k : K) (ttl now : ℚ) (v : V)
    (hv : lookupA c.cache k = some v) (he : lookupA c.expirations k = none) :
    c.get k ttl now = none := by
  simp [TTLCache.get, hv, he]

theorem removeA_append (l₁ l₂ : List (K × V)) (k : K) :
    removeA (l₁ ++ l₂) k = removeA l₁ k ++ removeA l₂ k :=
  List.filter_append _ _

theorem lookup_after_set {c c' : TTLCache K V} {k : K} {v : V} {ttl now : ℚ}
    (hset : c.set k v ttl now = some c') :
    lookupA c'.cache k = some v ∧ lookupA c'.expirations k = some (now + ttl) ∧
      c'.max_items = c.max_items := by
  unfold TTLCache.set at hset
  split at hset
  case isTrue h =>
    rcases hc : c.cache with _ | ⟨⟨k0, v0⟩, rest⟩
    · rw [hc] at hset
      simp at hset
    · rw [hc] at hset
      simp only [Option.some.injEq] at hset
      subst hset
      refine ⟨?_, ?_, rfl⟩
      · rw [lookupA_insertEntry_cache, if_pos rfl]
      · rw [lookupA_insertEntry_exp, if_pos rfl]
  case isFalse h =>
    simp only [Option.some.injEq] at hset
    subst hset
    refine ⟨?_, ?_, rfl⟩
    · rw [lookupA_insertEntry_cache, if_pos rfl]
    · rw [lookupA_insertEntry_exp, if_pos rfl]

end CacheLemmas

/-! ### Well-formedness of a cache state, preserved by every operation -/

/-- Internal consistency of a `TTLCache` state: the recency map and the
expiration map are keyed by the same set of keys, neither holds a duplicate
key, and the entry count is within capacity. -/
structure WF {K V : Type} [DecidableEq K] (c : TTLCache K V) : Prop where
  keys_eq : ∀ k : K, (lookupA c.cache k).isSome ↔ (lookupA c.expirations k).isSome
  nodup_cache : (c.cache.map Prod.fst).Nodup
  nodup_exp : (c.expirations.map Prod.fst).Nodup
  size_le : c.cache.length ≤ c.max_items

section WFLemmas

variable {K V : Type} [DecidableEq K]

theorem lookup_none_of_not_contains (l : List (K × V)) (k : K)
    (h : ¬ containsA l k) : lookupA l k = none := by
  cases hx : lookupA l k with
  | none => rfl
  | some v => exact absurd (by simp [containsA, hx]) h

theorem nodup_append_singleton {l : List K} {k : K} (h : l.Nodup) (hk : k ∉ l) :
    (l ++ [k]).Nodup := by
  rw [List.nodup_append]
  refine ⟨h, List.nodup_singleton k, ?_⟩
  intro a ha hb
  simp only [List.mem_singleton] at hb
  subst hb
  exact hk ha

theorem nodup_filter_append_singleton {l : List K} {k : K} (h : l.Nodup) :
    ((l.filter (fun x => x ≠ k)) ++ [k]).Nodup := by
  refine nodup_append_singleton (h.filter _) ?_
  simp [List.mem_filter]

theorem keys_moveToEnd (l : List (K × V)) (k : K) (v : V) (h : lookupA l k = some v) :
    (moveToEnd l k).map Prod.fst = ((l.map Prod.fst).filter (fun x => x ≠ k)) ++ [k] := by
  unfold moveToEnd
  rw [h]
  simp [keys_removeA]

theorem keys_setA_contains (l : List (K × V)) (k : K) (v : V) (h : containsA l k) :
    (setA l k v).map Prod.fst = l.map Prod.fst := by
  rw [setA, if_pos h]
  exact keys_mapset l k v

theorem keys_setA_not_contains (l : List (K × V)) (k : K) (v : V) (h : ¬ containsA l k) :
    (setA l k v).map Prod.fst = l.map Prod.fst ++ [k] := by
  rw [setA_of_not_contains _ _ _ h]
  simp

theorem nodup_keys_setA (l : List (K × V)) (k : K) (v : V)
    (hn : (l.map Prod.fst).Nodup) : ((setA l k v).map Prod.fst).Nodup := by
  by_cases hc : containsA l k
  · rw [keys_setA_contains _ _ _ hc]
    exact hn
  · rw [keys_setA_not_contains _ _ _ hc]
    exact nodup_append_singleton hn
      ((lookup_none_iff_not_mem_keys l k).mp (lookup_none_of_not_contains l k hc))

theorem nodup_keys_moveToEnd (l : List (K × V)) (k : K) (v : V)
    (h : lookupA l k = some v) (hn : (l.map Prod.fst).Nodup) :
    ((moveToEnd l k).map Prod.fst).Nodup := by
  rw [keys_moveToEnd _ _ _ h]
  exact nodup_filter_append_singleton hn

theorem keysEq_insertEntry {c : TTLCache K V}
    (h : ∀ k' : K, (lookupA c.cache k').isSome ↔ (lookupA c.expirations k').isSome)
    (k : K) (v : V) (ttl now : ℚ) :
    ∀ k' : K, (lookupA (c.insertEntry k v ttl now).cache k').isSome ↔
      (lookupA (c.insertEntry k v ttl now).expirations k').isSome := by
  intro k'
  rw [lookupA_insertEntry_cache, lookupA_insertEntry_exp]
  by_cases hk : k' = k
  · simp [hk]
  · simp only [hk, if_neg, if_false]
    exact h k'

theorem nodup_insertEntry_cache {c : TTLCache K V}
    (hn : (c.cache.map Prod.fst).Nodup) (k : K) (v : V) (ttl now : ℚ) :
    ((c.insertEntry k v ttl now).cache.map Prod.fst).Nodup :=
  nodup_keys_moveToEnd _ _ _ (lookupA_setA_self c.cache k v) (nodup_keys_setA _ _ _ hn)

theorem nodup_insertEntry_exp {c : TTLCache K V}
    (hn : (c.expirations.map Prod.fst).Nodup) (k : K) (v : V) (ttl now : ℚ) :
    ((c.insertEntry k v ttl now).expirations.map Prod.fst).Nodup :=
  nodup_keys_setA _ _ _ hn

theorem length_insertEntry_le (c : TTLCache K V) (k : K) (v : V) (ttl now : ℚ) :
    (c.insertEntry k v ttl now).cache.length ≤ c.cache.length + 1 := by
  have h1 := length_moveToEnd_le (setA c.cache k v) k v (lookupA_setA_self c.cache k v)
  have h2 : (setA c.cache k v).length ≤ c.cache.length + 1 := by
    by_cases hc : containsA c.cache k
    · rw [length_setA_of_contains _ _ _ hc]
      omega
    · rw [setA_of_not_contains _ _ _ hc]
      simp
  show (moveToEnd (setA c.cache k v) k).length ≤ c.cache.length + 1
  omega

theorem length_insertEntry_le_of_contains (c : TTLCache K V) (k : K) (v : V)
    (ttl now : ℚ) (hc : containsA c.cache k) :
    (c.insertEntry k v ttl now).cache.length ≤ c.cache.length := by
  have h1 := length_moveToEnd_le (setA c.cache k v) k v (lookupA_setA_self c.cache k v)
  rw [length_setA_of_contains _ _ _ hc] at h1
  exact h1

theorem WF_empty (max : ℕ) : WF (TTLCache.empty (K := K) (V := V) max) := by
  constructor <;> simp [TTLCache.empty, lookupA]

theorem WF_removeKey {c : TTLCache K V} (h : WF c) (k : K) : WF (c.removeKey k) := by
  constructor
  · intro k'
    show (lookupA (removeA c.cache k) k').isSome ↔ (lookupA (removeA c.expirations k) k').isSome
    rw [lookupA_removeA, lookupA_removeA]
    by_cases hk : k' = k
    · simp [hk]
    · simp only [hk, if_neg, if_false]
      exact h.keys_eq k'
  · show ((removeA c.cache k).map Prod.fst).Nodup
    rw [keys_removeA]
    exact h.nodup_cache.filter _
  · show ((removeA c.expirations k).map Prod.fst).Nodup
    rw [keys_removeA]
    exact h.nodup_exp.filter _
  · exact le_trans (length_removeA_le _ _) h.size_le

theorem WF_set {c c' : TTLCache K V} {k : K} {v : V} {ttl now : ℚ}
    (h : WF c) (hset : c.set k v ttl now = some c') : WF c' := by
  unfold TTLCache.set at hset
  split at hset
  case isTrue hcond =>
    rcases hc : c.cache with _ | ⟨⟨k0, v0⟩, rest⟩
    · rw [hc] at hset
      simp at hset
    · rw [hc] at hset
      simp only [Option.some.injEq] at hset
      subst hset
      have hd : WF (c.removeKey k0) := WF_removeKey h k0
      constructor
      · exact keysEq_insertEntry hd.keys_eq k v ttl now
      · exact nodup_insertEntry_cache hd.nodup_cache k v ttl now
      · exact nodup_insertEntry_exp hd.nodup_exp k v ttl now
      · have h1 : (c.removeKey k0).cache.length ≤ rest.length := by
          show (removeA c.cache k0).length ≤ rest.length
          rw [hc]
          exact length_removeA_head k0 v0 rest
        have h2 := length_insertEntry_le (c.removeKey k0) k v ttl now
        have h3 : c.cache.length ≤ c.max_items := h.size_le
        have h4 : c.cache.length = rest.length + 1 := by rw [hc]; rfl
        show ((c.removeKey k0).insertEntry k v ttl now).cache.length ≤ c.max_items
        omega
  case isFalse hcond =>
    simp only [Option.some.injEq] at hset
    subst hset
    constructor
    · exact keysEq_insertEntry h.keys_eq k v ttl now
    · exact nodup_insertEntry_cache h.nodup_cache k v ttl now
    · exact nodup_insertEntry_exp h.nodup_exp k v ttl now
    · show (c.insertEntry k v ttl now).cache.length ≤ c.max_items
      by_cases hcc : containsA c.cache k
      · have h1 := length_insertEntry_le_of_contains c k v ttl now hcc
        have h2 := h.size_le
        omega
      · have hlt : c.cache.length < c.max_items := by
          rcases not_and_or.mp hcond with hlen | hdn
          · omega
          · exact absurd hcc (by simpa using hdn)
        have h1 := length_insertEntry_le c k v ttl now
        omega

theorem applyOp_preserves {c : TTLCache K V} (h : WF c) (op : CacheOp K V) :
    WF (applyOp c op) ∧ (applyOp c op).max_items = c.max_items := by
  cases op with
  | get k ttl now =>
    cases hv : lookupA c.cache k with
    | none =>
      simp only [applyOp, get_of_absent c k ttl now hv]
      exact ⟨h, trivial⟩
    | some v =>
      cases he : lookupA c.expirations k with
      | none =>
        exact absurd ((h.keys_eq k).mp (by simp [hv])) (by simp [he])
      | some exp =>
        by_cases hx : exp < now
        · simp only [applyOp, get_of_expired c k ttl now v exp hv he hx]
          exact ⟨WF_removeKey h k, rfl⟩
        · simp only [applyOp, get_of_fresh c k ttl now v exp hv he hx]
          refine ⟨?_, trivial⟩
          constructor
          · intro k'
            show (lookupA (moveToEnd c.cache k) k').isSome ↔ _
            rw [lookupA_moveToEnd _ _ _ _ hv]
            by_cases hk : k' = k
            · simp [hk, he]
            · simp only [hk, if_neg, if_false]
              exact h.keys_eq k'
          · exact nodup_keys_moveToEnd _ _ _ hv h.nodup_cache
          · exact h.nodup_exp
          · exact le_trans (length_moveToEnd_le _ _ _ hv) h.size_le
  | set k v ttl now =>
    cases hs : c.set k v ttl now with
    | none =>
      simp only [applyOp, hs]
      exact ⟨h, trivial⟩
    | some c' =>
      simp only [applyOp, hs]
      exact ⟨WF_set h hs, (lookup_after_set hs).2.2⟩
  | clear =>
    refine ⟨?_, rfl⟩
    constructor <;> simp [applyOp, TTLCache.clear, lookupA]

theorem runOps_preserves {c : TTLCache K V} (h : WF c) (ops : List (CacheOp K V)) :
    WF (runOps c ops) ∧ (runOps c ops).max_items = c.max_items := by
  induction ops generalizing c with
  | nil => exact ⟨h, rfl⟩
  | cons op rest ih =>
    have h1 := applyOp_preserves h op
    have h2 := ih h1.1
    exact ⟨h2.1, h2.2.trans h1.2⟩

end WFLemmas

/-! ### `RateLimiter` (`utils.py`, lines 30–60) -/

/-- State of `RateLimiter`: `events` models the deque of admission
timestamps, oldest first. -/
structure RateLimiter where
  rps : ℚ
  window_sec : ℚ
  events : List ℚ
deriving DecidableEq

/-- The deque-pruning loop
`while self.events and self.events[0] < cutoff: self.events.popleft()`:
pop from the front while the head is strictly older than the cutoff. -/
def prune : List ℚ → ℚ → List ℚ
  | [], _ => []
  | e :: rest, cutoff => if e < cutoff then prune rest cutoff else e :: rest

/-- Python `int(q)` as applied to `self.rps`: `int` truncates toward zero,
and `int(self.rps)` is only ever evaluated on the `rps > 0` path, where
truncation toward zero is the floor. -/
def intPart (q : ℚ) : ℤ := ⌊q⌋

/-- `RateLimiter.wait()`.  `now` is the `time.time()` reading at entry and
`wake` the reading after `time.sleep` returns (`time.sleep(d)` suspends for
at least `d`, so a faithful run has `wake ≥ now + sleep_for`; `wake` is
unused on paths that do not sleep).  Returns `none` where the Python code
raises (`self.events[0]` raising `IndexError` on an empty deque), otherwise
`some (new state, clock reading at exit)`. -/
def RateLimiter.wait (rl : RateLimiter) (now wake : ℚ) : Option (RateLimiter × ℚ) :=
  if rl.rps ≤ 0 then some (rl, now)
  else
    let pruned := prune rl.events (now - rl.window_sec)
    if (pruned.length : ℤ) ≥ intPart rl.rps then
      match pruned with
      | [] => none
      | e0 :: rest =>
        let sleep_for := e0 + rl.window_sec - now
        if sleep_for > 0 then
          some ({ rl with
                  events := prune (e0 :: rest) (wake - rl.window_sec) ++ [wake] }, wake)
        else
          some ({ rl with events := (e0 :: rest) ++ [now] }, now)
    else
      some ({ rl with events := pruned ++ [now] }, now)

/-- The number of recorded admission timestamps lying in the closed trailing
window `[now - windowSec, now]`. -/
def inWindow (events : List ℚ) (windowSec now : ℚ) : ℕ :=
  (events.filter (fun e => now - windowSec ≤ e ∧ e ≤ now)).length

section RateLimiterLemmas

theorem prune_length_le (l : List ℚ) (c : ℚ) : (prune l c).length ≤ l.length := by
  induction l with
  | nil => simp [prune]
  | cons e rest ih =>
    by_cases h : e < c
    · simp only [prune, if_pos h]
      exact le_trans ih (Nat.le_succ _)
    · simp [prune, h]

theorem mem_of_mem_prune {l : List ℚ} {c e : ℚ} (h : e ∈ prune l c) : e ∈ l := by
  induction l with
  | nil => simpa [prune] using h
  | cons e0 rest ih =>
    by_cases h0 : e0 < c
    · simp only [prune, if_pos h0] at h
      exact List.mem_cons_of_mem _ (ih h)
    · simpa [prune, h0] using h

theorem prune_head_not_lt {l : List ℚ} {c e0 : ℚ}
    (h : (prune l c).head? = some e0) : ¬ e0 < c := by
  induction l with
  | nil => simp [prune] at h
  | cons e rest ih =>
    by_cases h0 : e < c
    · simp only [prune, if_pos h0] at h
      exact ih h
    · simp only [prune, if_neg h0, List.head?_cons, Option.some.injEq] at h
      subst h
      exact h0

theorem prune_cons_of_lt {e : ℚ} {rest : List ℚ} {c : ℚ} (h : e < c) :
    prune (e :: rest) c = prune rest c := by
  simp [prune, h]

theorem inWindow_le_length (events : List ℚ) (w q : ℚ) :
    inWindow events w q ≤ events.length :=
  List.length_filter_le _ _

end RateLimiterLemmas

/-! ### Domain errors (`common.py`) and the weather facades (`weather.py`) -/

/-- The custom exception classes of `common.py`. -/
inductive DomainError where
  | geocodingError (msg : String)
  | weatherAPIError (msg : String)
deriving DecidableEq

/-- The class of a `DomainError`, forgetting the message: what a caller
catching by exception type can observe. -/
inductive ErrKind where
  | geocoding
  | weatherAPI
deriving DecidableEq

/-- The exception class of an error. -/
def DomainError.kind : DomainError → ErrKind
  | .geocodingError _ => .geocoding
  | .weatherAPIError _ => .weatherAPI

/-- A parsed JSON object, as cached by the weather facades. -/
abbrev WDict := List (String × ℚ)

/-- The exception class a caller observes from a facade result. -/
def resultKind {α : Type} : Except DomainError α → Option ErrKind
  | .error e => some e.kind
  | .ok _ => none

/-- Outcome of the geocoding HTTP request issued by `get_coordinates`:
`ok data` is a successful response whose parsed JSON array yields the
`(lat, lon)` pairs `data`; `exn msg` is any exception of the caught classes
(`requests.RequestException`, `ValueError`, `IndexError`) with text `msg`,
covering transport failure after exhausted retries as well as a malformed
payload. -/
inductive GeoOutcome where
  | ok (data : List (ℚ × ℚ))
  | exn (msg : String)

/-- Result of one `get_coordinates` call: the returned value or the raised
error, the geocode cache afterwards, the number of HTTP requests issued,
and the number of `rate_limiter.wait()` calls made. -/
structure GeoCallResult where
  result : Except DomainError (ℚ × ℚ)
  cache : TTLCache String (ℚ × ℚ)
  externalCalls : ℕ
  rlWaits : ℕ

/-- `get_coordinates(city)` (`weather.py`, lines 19–62) at clock reading
`now` over geocode cache `gc`, where the network interaction (when reached)
has outcome `outcome`.  The rate limiter is modelled by the `rlWaits`
interaction count; its internal state is verified separately.  `none` is a
raise out of `TTLCache.get`/`TTLCache.set` (unreachable from well-formed
states).  The cached value is a two-element tuple, which is always truthy,
so `if cached:` is a plain presence test on this cache. -/
def get_coordinates (gc : TTLCache String (ℚ × ℚ)) (city : String) (now : ℚ)
    (outcome : GeoOutcome) : Option GeoCallResult :=
  let cache_key := "geo_" ++ city
  match gc.get cache_key Config.GEOCODE_TTL now with
  | none => none
  | some (some v, gc') => some ⟨.ok v, gc', 0, 0⟩
  | some (none, gc') =>
    match outcome with
    | .exn msg =>
      some ⟨.error (.geocodingError ("获取城市坐标失败: " ++ msg)), gc', 1, 1⟩
    | .ok [] =>
      some ⟨.error (.geocodingError ("无法找到城市: " ++ city)), gc', 1, 1⟩
    | .ok ((lat, lon) :: _) =>
      match gc'.set cache_key (lat, lon) Config.GEOCODE_TTL now with
      | none => none
      | some gc'' => some ⟨.ok (lat, lon), gc'', 1, 1⟩

/-- Outcome of the weather HTTP request issued by `get_current_weather`:
`ok w` is a successful response whose `data.get("current_weather", ...)`
is the JSON object `w` (possibly empty); `exn msg` is a
`requests.RequestException` with text `msg` after retries are exhausted. -/
inductive WeatherOutcome where
  | ok (current_weather : WDict)
  | exn (msg : String)

/-- Result of one `get_current_weather` call, mirroring `GeoCallResult`. -/
structure WeatherCallResult where
  result : Except DomainError WDict
  cache : TTLCache String WDict
  externalCalls : ℕ
  rlWaits : ℕ

/-- The miss path of `get_current_weather`: `rate_limiter.wait()`, the HTTP
request, then on success `weather_cache.set(...)` and return (note that an
empty `current_weather` object is cached and returned like any other), on
`RequestException` a raised `WeatherAPIError`. -/
def fetchCurrentWeather (wc' : TTLCache String WDict) (cache_key : String) (now : ℚ)
    (outcome : WeatherOutcome) : Option WeatherCallResult :=
  match outcome with
  | .exn msg =>
    some ⟨.error (.weatherAPIError ("获取天气数据失败: " ++ msg)), wc', 1, 1⟩
  | .ok weather_data =>
    match wc'.set cache_key weather_data Config.WEATHER_TTL now with
    | none => none
    | some wc'' => some ⟨.ok weather_data, wc'', 1, 1⟩

/-- `get_current_weather(lat, lon, units)` (`weather.py`, lines 64–102).
The cached value is a Python dict, so `if cached:` is a truthiness test:
a present but empty dict is falsy and falls through to a refetch. -/
def get_current_weather (wc : TTLCache String WDict) (lat lon : ℚ)
    (units : String) (now : ℚ) (outcome : WeatherOutcome) : Option WeatherCallResult :=
  let cache_key := "weather_" ++ toString lat ++ "_" ++ toString lon ++ "_" ++ units
  match wc.get cache_key Config.WEATHER_TTL now with
  | none => none
  | some (cached, wc') =>
    match cached with
    | some w =>
      if w = [] then fetchCurrentWeather wc' cache_key now outcome
      else some ⟨.ok w, wc', 0, 0⟩
    | none => fetchCurrentWeather wc' cache_key now outcome

/-! ### Claim C1 -/

/-- C1 counterexample: `set(1, 42, ttl = 5)` at time 0, then `get(1)` at the
exact instant `now = storedAt + ttl = 5`, still returns the value 42 — the
claim asserts the entry is already absent at that instant.  The code's
expiry test is strict (`time.time() > self.expirations[key]`). -/
theorem get_at_exact_expiry_returns_value :
    (TTLCache.empty (K := ℕ) (V := ℕ) 10).set 1 42 5 0 =
        some ⟨10, [(1, 42)], [(1, 5)]⟩ ∧
      (((⟨10, [(1, 42)], [(1, 5)]⟩ : TTLCache ℕ ℕ).get 1 0 5).map Prod.fst)
        = some (some 42) := by
  constructor
  · norm_num +decide [TTLCache.empty, TTLCache.set, TTLCache.insertEntry, containsA,
      lookupA, setA, moveToEnd, removeA, TTLCache.removeKey]
  · norm_num +decide [TTLCache.get, lookupA, moveToEnd, removeA]

/-- C1 (amended): after `set(k, v, t)` at time `storedAt` on a cache with
capacity at least 1 and with no intervening operations on `k`, `get(k)`
returns `v` at every query time `now ≤ storedAt + t` — including the exact
instant `now = storedAt + t`, where the entry is still present — and
returns absent at every `now > storedAt + t`, at which point the entry is
purged from both internal maps and behaves as absent. -/
theorem ttl_expiry_amended {K V : Type} [DecidableEq K] (c : TTLCache K V)
    (k : K) (v : V) (ttl t0 ttlArg now : ℚ) (hmax : 1 ≤ c.max_items) :
    ∃ c', c.set k v ttl t0 = some c' ∧
      (now ≤ t0 + ttl → ∃ c'', c'.get k ttlArg now = some (some v, c'')) ∧
      (t0 + ttl < now → ∃ c'', c'.get k ttlArg now = some (none, c'') ∧
        lookupA c''.cache k = none ∧ lookupA c''.expirations k = none) := by
  obtain ⟨c', hc'⟩ := Option.isSome_iff_exists.mp (set_isSome c k v ttl t0 hmax)
  obtain ⟨hv, he, -⟩ := lookup_after_set hc'
  refine ⟨c', hc', ?_, ?_⟩
  · intro hle
    exact ⟨_, get_of_fresh c' k ttlArg now v (t0 + ttl) hv he (not_lt.mpr hle)⟩
  · intro hlt
    refine ⟨c'.removeKey k, get_of_expired c' k ttlArg now v (t0 + ttl) hv he hlt, ?_, ?_⟩
    · show lookupA (removeA c'.cache k) k = none
      rw [lookupA_removeA]
      simp
    · show lookupA (removeA c'.expirations k) k = none
      rw [lookupA_removeA]
      simp

/-- C1 witness: the amended theorem applied at `k = 1`, `v = 42`, `ttl = 5`,
`storedAt = 0`, `now = 3` on an empty cache of capacity 10. -/
theorem ttl_expiry_amended_witness :
    1 ≤ (TTLCache.empty (K := ℕ) (V := ℕ) 10).max_items ∧
    (∃ c', (TTLCache.empty (K := ℕ) (V := ℕ) 10).set 1 42 5 0 = some c' ∧
      ((3 : ℚ) ≤ 0 + 5 → ∃ c'', c'.get 1 0 3 = some (some 42, c'')) ∧
      ((0 : ℚ) + 5 < 3 → ∃ c'', c'.get 1 0 3 = some (none, c'') ∧
        lookupA c''.cache 1 = none ∧ lookupA c''.expirations 1 = none)) :=
  ⟨by norm_num [TTLCache.empty],
   ttl_expiry_amended (TTLCache.empty 10) 1 42 5 0 0 3 (by norm_num [TTLCache.empty])⟩

/-! ### Claim C4 -/

/-- C4: the `ttl` argument of `TTLCache.get` is never used by its body, so
two `get` calls on the same key, in the same state, at the same time, with
any two ttl override arguments, return the same result and leave the same
state; expiry is determined solely by the expiration recorded at `set`
time. -/
theorem get_ttl_override_irrelevant {K V : Type} [DecidableEq K]
    (c : TTLCache K V) (k : K) (o1 o2 now : ℚ) :
    c.get k o1 now = c.get k o2 now := rfl

/-! ### Claim C10 -/

/-- C10: starting from a fresh cache of any capacity, after any sequence of
`get`/`set`/`clear` operations the key set of the recency-ordered value map
coincides with the key set of the expiration map, and consequently `get`
(whose only internal raise would be the expiration lookup of a key present
in the value map) never raises. -/
theorem cache_internal_consistency {K V : Type} [DecidableEq K] (max : ℕ)
    (ops : List (CacheOp K V)) (k : K) (ttl now : ℚ) :
    (∀ k' : K, (lookupA (runOps (TTLCache.empty max) ops).cache k').isSome ↔
        (lookupA (runOps (TTLCache.empty max) ops).expirations k').isSome) ∧
    ((runOps (TTLCache.empty max) ops).get k ttl now).isSome := by
  have hwf := (runOps_preserves (WF_empty max) ops).1
  refine ⟨hwf.keys_eq, ?_⟩
  cases hv : lookupA (runOps (TTLCache.empty max) ops).cache k with
  | none => simp [get_of_absent _ k ttl now hv]
  | some v =>
    have hs : (lookupA (runOps (TTLCache.empty max) ops).expirations k).isSome :=
      (hwf.keys_eq k).mp (by simp [hv])
    obtain ⟨exp, he⟩ := Option.isSome_iff_exists.mp hs
    by_cases hx : exp < now
    · simp [get_of_expired _ k ttl now v exp hv he hx]
    · simp [get_of_fresh _ k ttl now v exp hv he hx]

/-! ### Claim C2 -/

/-- C2: with capacity at least 1, after any sequence of operations starting
from an empty cache, `size() ≤ maxItems`; and a `set` of a
not-already-present key that finds the cache at capacity evicts exactly the
least-recently-used entry (the front of the order) before appending the new
key at the most-recently-used end, landing exactly at capacity. -/
theorem capacity_invariant {K V : Type} [DecidableEq K] (max : ℕ) (hmax : 1 ≤ max)
    (ops : List (CacheOp K V)) (k : K) (v : V) (ttl now : ℚ) :
    (runOps (TTLCache.empty max) ops).size ≤ max ∧
    (¬ containsA (runOps (TTLCache.empty max) ops).cache k →
      max ≤ (runOps (TTLCache.empty max) ops).cache.length →
      ∃ c', (runOps (TTLCache.empty max) ops).set k v ttl now = some c' ∧
        c'.cache = (runOps (TTLCache.empty max) ops).cache.tail ++ [(k, v)] ∧
        c'.size = max) := by
  obtain ⟨hwf, hm⟩ := runOps_preserves (WF_empty (K := K) (V := V) max) ops
  have hm' : (runOps (TTLCache.empty max) ops).max_items = max := hm
  refine ⟨le_trans hwf.size_le (le_of_eq hm'), ?_⟩
  intro hnc hge
  set c := runOps (TTLCache.empty (K := K) (V := V) max) ops with hc
  have hcond : c.cache.length ≥ c.max_items ∧ ¬ containsA c.cache k :=
    ⟨by rw [hm']; exact hge, hnc⟩
  rcases hcc : c.cache with _ | ⟨⟨k0, v0⟩, rest⟩
  · exfalso
    have h0 : c.cache.length = 0 := by rw [hcc]; rfl
    omega
  · have hk0 : k0 ∉ rest.map Prod.fst := by
      have hnd := hwf.nodup_cache
      rw [hcc] at hnd
      exact (List.nodup_cons.mp (by simpa using hnd)).1
    have hrest : removeA rest k0 = rest :=
      removeA_of_lookup_none rest k0 ((lookup_none_iff_not_mem_keys rest k0).mpr hk0)
    have hlk : lookupA c.cache k = none := lookup_none_of_not_contains c.cache k hnc
    rw [hcc] at hlk
    have hkk0 : ¬ k = k0 := by
      intro hh
      rw [lookupA_cons, if_pos hh] at hlk
      exact Option.noConfusion hlk
    rw [lookupA_cons, if_neg hkk0] at hlk
    have hset : c.set k v ttl now = some ((c.removeKey k0).insertEntry k v ttl now) := by
      unfold TTLCache.set
      rw [if_pos hcond, hcc]
    have hdc : (c.removeKey k0).cache = rest := by
      show removeA c.cache k0 = rest
      rw [hcc, removeA_cons, if_pos rfl, hrest]
    have hsa : setA rest k v = rest ++ [(k, v)] :=
      setA_of_not_contains rest k v (by simp [containsA, hlk])
    have hlook : lookupA (rest ++ [(k, v)]) k = some v := by
      rw [lookupA_append_none _ _ _ hlk]
      simp [lookupA]
    have hmv : moveToEnd (rest ++ [(k, v)]) k = rest ++ [(k, v)] := by
      unfold moveToEnd
      rw [hlook, removeA_append, removeA_of_lookup_none rest k hlk]
      simp [removeA]
    have hcache : ((c.removeKey k0).insertEntry k v ttl now).cache = rest ++ [(k, v)] := by
      show moveToEnd (setA (c.removeKey k0).cache k v) k = rest ++ [(k, v)]
      rw [hdc, hsa, hmv]
    refine ⟨_, hset, ?_, ?_⟩
    · rw [hcache]
      rfl
    · show ((c.removeKey k0).insertEntry k v ttl now).cache.length = max
      rw [hcache]
      have hlen : c.cache.length = rest.length + 1 := by rw [hcc]; rfl
      have hle := hwf.size_le
      simp only [List.length_append, List.length_cons, List.length_nil]
      omega

/-- C2 witness: capacity 1, one prior `set` of key 0, then the conclusion at
key 1. -/
theorem capacity_invariant_witness :
    1 ≤ 1 ∧
    ((runOps (TTLCache.empty (K := ℕ) (V := ℕ) 1) [.set 0 5 10 0]).size ≤ 1 ∧
    (¬ containsA (runOps (TTLCache.empty (K := ℕ) (V := ℕ) 1) [.set 0 5 10 0]).cache 1 →
      1 ≤ (runOps (TTLCache.empty (K := ℕ) (V := ℕ) 1) [.set 0 5 10 0]).cache.length →
      ∃ c', (runOps (TTLCache.empty (K := ℕ) (V := ℕ) 1) [.set 0 5 10 0]).set 1 7 10 0
          = some c' ∧
        c'.cache
          = (runOps (TTLCache.empty (K := ℕ) (V := ℕ) 1) [.set 0 5 10 0]).cache.tail
              ++ [(1, 7)] ∧
        c'.size = 1)) :=
  ⟨le_refl 1, capacity_invariant 1 (le_refl 1) [.set 0 5 10 0] 1 7 10 0⟩

/-! ### Claim C3 -/

/-- C3: with `maxItems = 2` and distinct keys `a`, `b`, `c`, after
`set(a)`, `set(b)`, `get(a)` (hitting an unexpired entry), `set(c)`, the
cache holds exactly `a` and `c` — `b`, the least recently used, was the one
evicted, irrespective of its remaining TTL `tb`; and in general every `get`
that returns a value moves its key to the most-recently-used end of the
order. -/
theorem lru_eviction_order {K V : Type} [DecidableEq K] (a b c : K)
    (va vb vc : V) (ta tb tc t1 t2 t3 t4 tq : ℚ)
    (hab : a ≠ b) (hac : a ≠ c) (hbc : b ≠ c) (hfresh : t3 ≤ t1 + ta) :
    (runOps (TTLCache.empty 2)
        [.set a va ta t1, .set b vb tb t2, .get a tq t3, .set c vc tc t4]).cache
      = [(a, va), (c, vc)] ∧
    (∀ (d d' : TTLCache K V) (k : K) (v : V) (o now : ℚ),
      d.get k o now = some (some v, d') →
      d'.cache = removeA d.cache k ++ [(k, v)]) := by
  constructor
  · have hba : ¬ b = a := fun h => hab h.symm
    have hca : ¬ c = a := fun h => hac h.symm
    have hcb : ¬ c = b := fun h => hbc h.symm
    have hfresh' : ¬ (t1 + ta < t3) := not_lt.mpr hfresh
    simp +decide [runOps, List.foldl, applyOp, TTLCache.set, TTLCache.get,
      TTLCache.insertEntry, TTLCache.removeKey, TTLCache.empty, setA, containsA,
      lookupA, moveToEnd, removeA, List.filter, hab, hac, hbc, hba, hca, hcb, hfresh']
  · intro d d' k v o now hget
    cases hv : lookupA d.cache k with
    | none =>
      rw [get_of_absent d k o now hv] at hget
      simp at hget
    | some v0 =>
      cases he : lookupA d.expirations k with
      | none =>
        rw [get_keyerror d k o now v0 hv he] at hget
        exact Option.noConfusion hget
      | some exp =>
        by_cases hx : exp < now
        · rw [get_of_expired d k o now v0 exp hv he hx] at hget
          simp at hget
        · rw [get_of_fresh d k o now v0 exp hv he hx] at hget
          simp only [Option.some.injEq, Prod.mk.injEq] at hget
          obtain ⟨hv0, hd'⟩ := hget
          obtain rfl : v0 = v := hv0
          rw [← hd']
          show moveToEnd d.cache k = removeA d.cache k ++ [(k, v0)]
          unfold moveToEnd
          rw [hv]

/-- C3 witness: the scenario at keys 0, 1, 2 with ttl 100 and all calls at
time 0. -/
theorem lru_eviction_order_witness :
    ((0 : ℕ) ≠ 1 ∧ (0 : ℕ) ≠ 2 ∧ (1 : ℕ) ≠ 2 ∧ (0 : ℚ) ≤ 0 + 100) ∧
    ((runOps (TTLCache.empty 2)
        [.set 0 10 100 0, .set 1 11 100 0, .get 0 0 0, .set 2 12 100 0]).cache
      = [((0 : ℕ), (10 : ℕ)), (2, 12)] ∧
    (∀ (d d' : TTLCache ℕ ℕ) (k : ℕ) (v : ℕ) (o now : ℚ),
      d.get k o now = some (some v, d') →
      d'.cache = removeA d.cache k ++ [(k, v)])) :=
  ⟨⟨by decide, by decide, by decide, by norm_num⟩,
   lru_eviction_order 0 1 2 10 11 12 100 100 100 0 0 0 0 0
     (by decide) (by decide) (by decide) (by norm_num)⟩

/-! ### Claim C5 -/

/-- C5 counterexample: `rps = 1`, `window_sec = 1`.  A first `wait()` at
time 0 records timestamp 0; a second `wait()` at time 1 finds the oldest
timestamp exactly at the window boundary (`0 < 1 - 1` fails, so it is not
pruned; `sleep_for = 0` is not positive, so it does not sleep) and records
its own timestamp without blocking, after which the closed trailing window
`[1 - 1, 1]` holds two timestamps — exceeding `maxEvents = int(rps) = 1`. -/
theorem window_bound_boundary_violation :
    RateLimiter.wait ⟨1, 1, []⟩ 0 0 = some (⟨1, 1, [0]⟩, 0) ∧
    RateLimiter.wait ⟨1, 1, [0]⟩ 1 0 = some (⟨1, 1, [0, 1]⟩, 1) ∧
    inWindow [0, 1] 1 1 = 2 ∧ intPart (1 : ℚ) = 1 := by
  refine ⟨?_, ?_, ?_, ?_⟩
  · norm_num [RateLimiter.wait, prune, intPart]
  · norm_num [RateLimiter.wait, prune, intPart]
  · norm_num [inWindow, List.filter]
  · norm_num [intPart]

/-- C5 (amended): provided no recorded timestamp lies exactly on the window
boundary `now - windowSeconds` at the moment of a call, and a sleep wakes
strictly after the oldest timestamp has left the window, a `wait()` step
from a state holding at most `maxEvents = int(rps)` timestamps returns
normally to a state holding at most `maxEvents` timestamps — hence at every
instant `q` the timestamps in the closed trailing window
`[q - windowSeconds, q]` number at most `maxEvents`.  (Without the proviso
the bound can be exceeded at an exact-boundary instant.)  When the pruned
deque is at capacity the call sleeps, re-prunes at the wakeup reading, and
records its own admission timestamp. -/
theorem window_bound_amended (s : RateLimiter) (now wake : ℚ)
    (hM : 1 ≤ intPart s.rps)
    (hlen : (s.events.length : ℤ) ≤ intPart s.rps)
    (hb : ∀ e ∈ s.events, e ≠ now - s.window_sec)
    (hw : ∀ e0 ∈ (prune s.events (now - s.window_sec)).head?,
      e0 + s.window_sec < wake) :
    ∃ s' t', s.wait now wake = some (s', t') ∧
      (s'.events.length : ℤ) ≤ intPart s.rps ∧
      (∀ q : ℚ, (inWindow s'.events s.window_sec q : ℤ) ≤ intPart s.rps) ∧
      (intPart s.rps ≤ ((prune s.events (now - s.window_sec)).length : ℤ) →
        ∀ e0 rest, prune s.events (now - s.window_sec) = e0 :: rest →
          s'.events = prune (e0 :: rest) (wake - s.window_sec) ++ [wake] ∧
            t' = wake) := by
  have hrpos : ¬ s.rps ≤ 0 := by
    intro h0
    have h1 : ((1 : ℤ) : ℚ) ≤ s.rps := Int.le_floor.mp hM
    push_cast at h1
    linarith
  by_cases hge : intPart s.rps ≤ ((prune s.events (now - s.window_sec)).length : ℤ)
  · cases hp : prune s.events (now - s.window_sec) with
    | nil =>
      rw [hp] at hge
      simp at hge
      omega
    | cons e0 rest =>
      have he0mem : e0 ∈ s.events :=
        mem_of_mem_prune (l := s.events) (c := now - s.window_sec)
          (by rw [hp]; exact List.mem_cons_self _ _)
      have he0nlt : ¬ e0 < now - s.window_sec :=
        prune_head_not_lt (l := s.events) (c := now - s.window_sec)
          (by rw [hp]; rfl)
      have he0ne : e0 ≠ now - s.window_sec := hb e0 he0mem
      have hsl : e0 + s.window_sec - now > 0 := by
        have hgt : now - s.window_sec < e0 :=
          lt_of_le_of_ne (not_lt.mp he0nlt) (Ne.symm he0ne)
        linarith
      rw [hp] at hge hw
      have he0w : e0 + s.window_sec < wake := hw e0 (by simp)
      have he0lt' : e0 < wake - s.window_sec := by linarith
      have hwait : s.wait now wake =
          some ({ s with
                  events := prune (e0 :: rest) (wake - s.window_sec) ++ [wake] },
                wake) := by
        simp only [RateLimiter.wait, hp]
        rw [if_neg hrpos, if_pos hge, if_pos hsl]
      have hlb : ((prune (e0 :: rest) (wake - s.window_sec) ++ [wake]).length : ℤ)
          ≤ intPart s.rps := by
        rw [prune_cons_of_lt he0lt']
        have h1 : (prune rest (wake - s.window_sec)).length ≤ rest.length :=
          prune_length_le _ _
        have h2 : (e0 :: rest).length ≤ s.events.length := by
          rw [← hp]
          exact prune_length_le _ _
        simp only [List.length_cons] at h2
        simp only [List.length_append, List.length_cons, List.length_nil]
        omega
      refine ⟨_, wake, hwait, hlb, ?_, ?_⟩
      · intro q
        have h1 := inWindow_le_length
          (prune (e0 :: rest) (wake - s.window_sec) ++ [wake]) s.window_sec q
        have h2 : ((inWindow (prune (e0 :: rest) (wake - s.window_sec) ++ [wake])
            s.window_sec q : ℕ) : ℤ) ≤
            (((prune (e0 :: rest) (wake - s.window_sec) ++ [wake]).length : ℕ) : ℤ) := by
          exact_mod_cast h1
        exact le_trans h2 hlb
      · intro _ e0' rest' heq
        obtain ⟨rfl, rfl⟩ : e0 = e0' ∧ rest = rest' := by
          injection heq with h1 h2
          exact ⟨h1, h2⟩
        exact ⟨rfl, rfl⟩
  · have hwait : s.wait now wake =
        some ({ s with events := prune s.events (now - s.window_sec) ++ [now] },
              now) := by
      simp only [RateLimiter.wait]
      rw [if_neg hrpos, if_neg hge]
    have hlb : ((prune s.events (now - s.window_sec) ++ [now]).length : ℤ)
        ≤ intPart s.rps := by
      push_neg at hge
      simp only [List.length_append, List.length_cons, List.length_nil]
      omega
    refine ⟨_, now, hwait, hlb, ?_, ?_⟩
    · intro q
      have h1 := inWindow_le_length
        (prune s.events (now - s.window_sec) ++ [now]) s.window_sec q
      have h2 : ((inWindow (prune s.events (now - s.window_sec) ++ [now])
          s.window_sec q : ℕ) : ℤ) ≤
          (((prune s.events (now - s.window_sec) ++ [now]).length : ℕ) : ℤ) := by
        exact_mod_cast h1
      exact le_trans h2 hlb
    · intro hge'
      exact absurd hge' hge

/-- C5 witness: the amended theorem applied to an empty limiter with
`rps = 1`, `window_sec = 1`, a call at time 0. -/
theorem window_bound_amended_witness :
    1 ≤ intPart (RateLimiter.mk 1 1 []).rps ∧
    (((RateLimiter.mk 1 1 []).events.length : ℤ) ≤ intPart (RateLimiter.mk 1 1 []).rps) ∧
    (∃ s' t', (RateLimiter.mk 1 1 []).wait 0 0 = some (s', t') ∧
      (s'.events.length : ℤ) ≤ intPart (RateLimiter.mk 1 1 []).rps ∧
      (∀ q : ℚ, (inWindow s'.events (RateLimiter.mk 1 1 []).window_sec q : ℤ)
        ≤ intPart (RateLimiter.mk 1 1 []).rps) ∧
      (intPart (RateLimiter.mk 1 1 []).rps ≤
          ((prune (RateLimiter.mk 1 1 []).events
            ((0 : ℚ) - (RateLimiter.mk 1 1 []).window_sec)).length : ℤ) →
        ∀ e0 rest, prune (RateLimiter.mk 1 1 []).events
            ((0 : ℚ) - (RateLimiter.mk 1 1 []).window_sec) = e0 :: rest →
          s'.events = prune (e0 :: rest) ((0 : ℚ) - (RateLimiter.mk 1 1 []).window_sec)
              ++ [(0 : ℚ)] ∧ t' = (0 : ℚ))) :=
  ⟨by norm_num [intPart], by norm_num [intPart],
   window_bound_amended (RateLimiter.mk 1 1 []) 0 0 (by norm_num [intPart])
     (by norm_num [intPart]) (by simp) (by simp [prune])⟩

/-! ### Claim C6 -/

/-- C6 (the code evaluated at the failing input): with the fractional rate
`rps = 1/2` — a configuration the claim asserts can only delay and never
fail — the very first `wait()` call finds `len(self.events) = 0` at least
`int(0.5) = 0`, then evaluates `self.events[0]` on the empty deque and
raises `IndexError`; the model returns `none`. -/
theorem wait_fractional_rps_crashes :
    RateLimiter.wait ⟨1 / 2, 1, []⟩ 0 0 = none := by
  norm_num [RateLimiter.wait, prune, intPart]

/-! ### Claim C7 -/

/-- C7 counterexample: the weather cache holds the key for coordinates
`(1, 2)` with the empty dict `[]` as value, unexpired (expiry 300, query at
time 10).  The claim requires a hit with zero external calls and zero
rate-limiter interactions; the code's `if cached:` treats the empty dict as
falsy, so the call issues one external request and one `wait()`. -/
theorem falsy_cached_value_refetches :
    (get_current_weather ⟨1000, [("weather_1_2_metric", [])],
        [("weather_1_2_metric", 300)]⟩ 1 2 "metric" 10
        (.ok [("temperature", 20)])).map (fun r => (r.externalCalls, r.rlWaits))
      = some (1, 1) := by
  decide

/-- C7 (amended): a lookup that finds a present, unexpired, and truthy
value returns it with no external call and no rate-limiter interaction —
for geocoding every cached value is a nonempty tuple, hence truthy, so no
extra condition is needed; for weather the cached dict must be nonempty.
Two weather lookups of the same key within the TTL issue exactly one
external call in total, provided the first fetch returned a nonempty
payload. -/
theorem cache_hit_no_external_call_amended :
    (∀ (gc : TTLCache String (ℚ × ℚ)) (city : String) (now : ℚ)
       (v : ℚ × ℚ) (gc' : TTLCache String (ℚ × ℚ)),
      gc.get ("geo_" ++ city) Config.GEOCODE_TTL now = some (some v, gc') →
      ∀ outcome, get_coordinates gc city now outcome = some ⟨.ok v, gc', 0, 0⟩) ∧
    (∀ (wc : TTLCache String WDict) (lat lon : ℚ) (units : String) (now : ℚ)
       (w : WDict) (wc' : TTLCache String WDict),
      wc.get ("weather_" ++ toString lat ++ "_" ++ toString lon ++ "_" ++ units)
          Config.WEATHER_TTL now = some (some w, wc') →
      w ≠ [] →
      ∀ outcome, get_current_weather wc lat lon units now outcome
        = some ⟨.ok w, wc', 0, 0⟩) ∧
    (∀ (wc : TTLCache String WDict) (lat lon : ℚ) (units : String)
       (now₁ now₂ : ℚ) (w : WDict) (wc₁ : TTLCache String WDict),
      wc.get ("weather_" ++ toString lat ++ "_" ++ toString lon ++ "_" ++ units)
          Config.WEATHER_TTL now₁ = some (none, wc₁) →
      1 ≤ wc₁.max_items →
      w ≠ [] →
      now₂ ≤ now₁ + Config.WEATHER_TTL →
      ∃ wc₂, get_current_weather wc lat lon units now₁ (.ok w)
          = some ⟨.ok w, wc₂, 1, 1⟩ ∧
        ∀ outcome₂, ∃ wc₃, get_current_weather wc₂ lat lon units now₂ outcome₂
          = some ⟨.ok w, wc₃, 0, 0⟩) := by
  refine ⟨?_, ?_, ?_⟩
  · intro gc city now v gc' hget outcome
    simp only [get_coordinates, hget]
  · intro wc lat lon units now w wc' hget hw outcome
    simp only [get_current_weather, hget]
    rw [if_neg hw]
  · intro wc lat lon units now₁ now₂ w wc₁ hmiss hmax hw hfresh
    obtain ⟨wc₂, hset⟩ := Option.isSome_iff_exists.mp
      (set_isSome wc₁ ("weather_" ++ toString lat ++ "_" ++ toString lon ++ "_" ++ units)
        w Config.WEATHER_TTL now₁ hmax)
    obtain ⟨hv, he, -⟩ := lookup_after_set hset
    refine ⟨wc₂, ?_, ?_⟩
    · simp only [get_current_weather, hmiss, fetchCurrentWeather, hset]
    · intro outcome₂
      obtain ⟨wcmv, hget₂⟩ : ∃ x, wc₂.get
          ("weather_" ++ toString lat ++ "_" ++ toString lon ++ "_" ++ units)
          Config.WEATHER_TTL now₂ = some (some w, x) :=
        ⟨_, get_of_fresh wc₂ _ Config.WEATHER_TTL now₂ w (now₁ + Config.WEATHER_TTL)
          hv he (not_lt.mpr hfresh)⟩
      refine ⟨wcmv, ?_⟩
      simp only [get_current_weather, hget₂]
      rw [if_neg hw]

/-- C7 witness: the two-lookup scenario of the amended theorem at
coordinates `(1, 2)`, metric units, first call at time 0, second at
time 10, fetched payload `[("temperature", 20)]`. -/
theorem cache_hit_no_external_call_amended_witness :
    ((TTLCache.empty 1000 : TTLCache String WDict).get
        ("weather_" ++ toString (1 : ℚ) ++ "_" ++ toString (2 : ℚ) ++ "_" ++ "metric")
        Config.WEATHER_TTL 0 = some (none, TTLCache.empty 1000) ∧
      1 ≤ (TTLCache.empty (K := String) (V := WDict) 1000).max_items ∧
      ([(("temperature" : String), (20 : ℚ))] : WDict) ≠ [] ∧
      (10 : ℚ) ≤ 0 + Config.WEATHER_TTL) ∧
    (∃ wc₂, get_current_weather (TTLCache.empty 1000) 1 2 "metric" 0
        (.ok [("temperature", 20)]) = some ⟨.ok [("temperature", 20)], wc₂, 1, 1⟩ ∧
      ∀ outcome₂, ∃ wc₃, get_current_weather wc₂ 1 2 "metric" 10 outcome₂
        = some ⟨.ok [("temperature", 20)], wc₃, 0, 0⟩) :=
  ⟨⟨rfl, by norm_num [TTLCache.empty], by decide, by norm_num [Config.WEATHER_TTL]⟩,
   cache_hit_no_external_call_amended.2.2 (TTLCache.empty 1000) 1 2 "metric" 0 10
     [("temperature", 20)] (TTLCache.empty 1000) rfl
     (by norm_num [TTLCache.empty]) (by decide)
     (by norm_num [Config.WEATHER_TTL])⟩

/-! ### Claim C8 -/

theorem get_miss_cache_lookup_none {K V : Type} [DecidableEq K]
    {c c' : TTLCache K V} {k : K} {ttl now : ℚ}
    (h : c.get k ttl now = some (none, c')) : lookupA c'.cache k = none := by
  cases hv : lookupA c.cache k with
  | none =>
    rw [get_of_absent c k ttl now hv] at h
    simp only [Option.some.injEq, Prod.mk.injEq] at h
    rw [← h.2]
    exact hv
  | some v =>
    cases he : lookupA c.expirations k with
    | none =>
      rw [get_keyerror c k ttl now v hv he] at h
      exact Option.noConfusion h
    | some exp =>
      by_cases hx : exp < now
      · rw [get_of_expired c k ttl now v exp hv he hx] at h
        simp only [Option.some.injEq, Prod.mk.injEq] at h
        rw [← h.2]
        show lookupA (removeA c.cache k) k = none
        rw [lookupA_removeA]
        simp
      · rw [get_of_fresh c k ttl now v exp hv he hx] at h
        simp at h

/-- C8 counterexample: the geocode cache holds an entry for the key, but
expired (expiry 5, query at time 10); the fetch fails.  The error
propagates and nothing is written — yet the cache state is *not* unchanged:
the initial lookup lazily deleted the expired entry, so the final state is
empty rather than equal to the initial state, contradicting the claim's
"cache state is unchanged" as literally stated. -/
theorem fetch_failure_mutates_cache_on_expiry :
    (get_coordinates ⟨1000, [("geo_P", ((1 : ℚ), (2 : ℚ)))], [("geo_P", 5)]⟩ "P" 10
        (.exn "connection refused")).map (fun r => r.cache)
      = some ⟨1000, [], []⟩ ∧
    (get_coordinates ⟨1000, [("geo_P", ((1 : ℚ), (2 : ℚ)))], [("geo_P", 5)]⟩ "P" 10
        (.exn "connection refused")).map (fun r => resultKind r.result)
      = some (some ErrKind.geocoding) ∧
    (⟨1000, [], []⟩ : TTLCache String (ℚ × ℚ))
      ≠ ⟨1000, [("geo_P", ((1 : ℚ), (2 : ℚ)))], [("geo_P", 5)]⟩ := by
  refine ⟨by decide, by decide, by decide⟩

/-- C8 (amended): when the external fetch fails after retries, the
operation raises the matching domain error (`GeocodingError` for
geocoding, `WeatherAPIError` for weather), the error propagates, no entry
is written for the key and no error value is ever stored: the final cache
state is exactly the state left by the initial lookup (which may itself
have lazily deleted an expired entry or refreshed the recency of a falsy
entry), and for geocoding the key is absent from it. -/
theorem fetch_failure_atomicity_amended :
    (∀ (gc : TTLCache String (ℚ × ℚ)) (city : String) (now : ℚ) (msg : String)
       (gc' : TTLCache String (ℚ × ℚ)),
      gc.get ("geo_" ++ city) Config.GEOCODE_TTL now = some (none, gc') →
      get_coordinates gc city now (.exn msg)
          = some ⟨.error (.geocodingError ("获取城市坐标失败: " ++ msg)), gc', 1, 1⟩ ∧
        lookupA gc'.cache ("geo_" ++ city) = none) ∧
    (∀ (wc : TTLCache String WDict) (lat lon : ℚ) (units : String) (now : ℚ)
       (msg : String) (cached : Option WDict) (wc' : TTLCache String WDict),
      wc.get ("weather_" ++ toString lat ++ "_" ++ toString lon ++ "_" ++ units)
          Config.WEATHER_TTL now = some (cached, wc') →
      (cached = none ∨ cached = some []) →
      get_current_weather wc lat lon units now (.exn msg)
        = some ⟨.error (.weatherAPIError ("获取天气数据失败: " ++ msg)), wc', 1, 1⟩) := by
  constructor
  · intro gc city now msg gc' hget
    refine ⟨?_, get_miss_cache_lookup_none hget⟩
    simp only [get_coordinates, hget]
  · intro wc lat lon units now msg cached wc' hget hfalsy
    rcases hfalsy with rfl | rfl
    · simp only [get_current_weather, hget, fetchCurrentWeather]
    · simp only [get_current_weather, hget, fetchCurrentWeather]
      simp

/-- C8 witness: the amended theorem applied to an empty geocode cache and a
weather cache with an empty-dict entry. -/
theorem fetch_failure_atomicity_amended_witness :
    ((TTLCache.empty 1000 : TTLCache String (ℚ × ℚ)).get ("geo_" ++ "Paris")
        Config.GEOCODE_TTL 0 = some (none, TTLCache.empty 1000) ∧
      (get_coordinates (TTLCache.empty 1000) "Paris" 0 (.exn "boom")
          = some ⟨.error (.geocodingError ("获取城市坐标失败: " ++ "boom")),
              TTLCache.empty 1000, 1, 1⟩ ∧
        lookupA (TTLCache.empty 1000 :
            TTLCache String (ℚ × ℚ)).cache ("geo_" ++ "Paris") = none)) ∧
    ((TTLCache.empty 1000 : TTLCache String WDict).get
        ("weather_" ++ toString (1 : ℚ) ++ "_" ++ toString (2 : ℚ) ++ "_" ++ "metric")
        Config.WEATHER_TTL 0 = some (none, TTLCache.empty 1000) ∧
      get_current_weather (TTLCache.empty 1000) 1 2 "metric" 0 (.exn "boom")
        = some ⟨.error (.weatherAPIError ("获取天气数据失败: " ++ "boom")),
            TTLCache.empty 1000, 1, 1⟩) :=
  ⟨⟨rfl, fetch_failure_atomicity_amended.1 (TTLCache.empty 1000) "Paris" 0 "boom"
      (TTLCache.empty 1000) rfl⟩,
   ⟨rfl, fetch_failure_atomicity_amended.2 (TTLCache.empty 1000) 1 2 "metric" 0 "boom"
      none (TTLCache.empty 1000) rfl (Or.inl rfl)⟩⟩

/-! ### Claim C9 -/

/-- C9 counterexample: on a cache miss, a geocoding call whose transport
succeeds but returns an empty result set and a geocoding call whose
transport fails raise errors of the *same* class (`GeocodingError`), so a
caller cannot distinguish "city not found" from "service unreachable" by
the error type alone. -/
theorem not_found_same_kind_as_transport_failure :
    ((get_coordinates (TTLCache.empty 1000) "Nowhere" 0 (.ok [])).map
        (fun r => resultKind r.result)) = some (some ErrKind.geocoding) ∧
    ((get_coordinates (TTLCache.empty 1000) "Nowhere" 0 (.exn "timeout")).map
        (fun r => resultKind r.result)) = some (some ErrKind.geocoding) := by
  constructor
  · decide
  · decide

/-- C9 (amended): on a miss, the empty-result case raises
`GeocodingError("无法找到城市: ...")` and the transport-failure case raises
`GeocodingError("获取城市坐标失败: ...")` — the same exception class,
differing only in message; the error type alone distinguishes geocoding
failures from weather-API failures (`WeatherAPIError`), but not the
semantic not-found from a transport failure. -/
theorem error_kinds_amended :
    (∀ (gc : TTLCache String (ℚ × ℚ)) (city : String) (now : ℚ)
       (gc' : TTLCache String (ℚ × ℚ)),
      gc.get ("geo_" ++ city) Config.GEOCODE_TTL now = some (none, gc') →
      get_coordinates gc city now (.ok [])
          = some ⟨.error (.geocodingError ("无法找到城市: " ++ city)), gc', 1, 1⟩ ∧
      (∀ msg, get_coordinates gc city now (.exn msg)
          = some ⟨.error (.geocodingError ("获取城市坐标失败: " ++ msg)), gc', 1, 1⟩)) ∧
    (∀ m₁ m₂ : String, (DomainError.geocodingError m₁).kind
        = (DomainError.geocodingError m₂).kind) ∧
    (∀ m₁ m₂ : String, (DomainError.geocodingError m₁).kind
        ≠ (DomainError.weatherAPIError m₂).kind) := by
  refine ⟨?_, ?_, ?_⟩
  · intro gc city now gc' hget
    constructor
    · simp only [get_coordinates, hget]
    · intro msg
      simp only [get_coordinates, hget]
  · intro m₁ m₂
    rfl
  · intro m₁ m₂
    simp [DomainError.kind]

/-- C9 witness: the amended theorem applied to an empty geocode cache at
city "Nowhere". -/
theorem error_kinds_amended_witness :
    ((TTLCache.empty 1000 : TTLCache String (ℚ × ℚ)).get ("geo_" ++ "Nowhere")
        Config.GEOCODE_TTL 0 = some (none, TTLCache.empty 1000)) ∧
    (get_coordinates (TTLCache.empty 1000) "Nowhere" 0 (.ok [])
        = some ⟨.error (.geocodingError ("无法找到城市: " ++ "Nowhere")),
            TTLCache.empty 1000, 1, 1⟩ ∧
      (∀ msg, get_coordinates (TTLCache.empty 1000) "Nowhere" 0 (.exn msg)
        = some ⟨.error (.geocodingError ("获取城市坐标失败: " ++ msg)),
            TTLCache.empty 1000, 1, 1⟩)) :=
  ⟨rfl, error_kinds_amended.1 (TTLCache.empty 1000) "Nowhere" 0
    (TTLCache.empty 1000) rfl⟩

end ADK
